import Mathlib

/-!
# Verification of the control-noise-simulator physics engine

A shallow embedding of `src/physics/engine.ts` over the real numbers.
JavaScript `number` values are modelled as `ℝ`; the nondeterministic
random sources (`Math.random()`, `boxMullerTransform()` and the pink-noise
generator output) are modelled as explicit real-valued oracle streams
passed into the simulation, so every theorem quantifies over all possible
draws.  The module-level mutable filter-state map is threaded explicitly
as an association list.
-/

namespace ControlNoise

/-- Mirrors `ComponentConfig` from `src/types.ts`.  The component kind is a
string (as at JS runtime) so that unknown kinds can be expressed. -/
structure ComponentConfig where
  id : String
  type : String
  value : ℝ

/-- Mirrors `SourceParams` from `src/types.ts`. -/
structure SourceParams where
  targetFreq : ℝ
  envelopeType : String
  pulseWidth : ℝ
  riseTime : ℝ
  sigma : ℝ
  libraryWindow : String

/-- Mirrors `AWGParams` from `src/types.ts`. -/
structure AWGParams where
  ncoFreq : ℝ
  amp : ℝ
  phase : ℝ
  phaseNoise : ℝ

/-- Mirrors `DACParams` from `src/types.ts`. -/
structure DACParams where
  resolution : ℝ
  sampleJitter : ℝ

/-- Mirrors `MixerParams` from `src/types.ts`. -/
structure MixerParams where
  loFreq : ℝ
  loLeakage : ℝ
  iqAmpImbalance : ℝ
  iqPhaseImbalance : ℝ

/-- Mirrors `CableParams` from `src/types.ts` (`flickerNoise` is used by the
engine through `|| 0` and `!`, so it is modelled as a plain real). -/
structure CableParams where
  temp : ℝ
  flickerNoise : ℝ
  noiseType : Option String
  noiseIntensity : Option ℝ
  components : List ComponentConfig

/-- Mirrors `QubitParams` from `src/types.ts`. -/
structure QubitParams where
  coupling : ℝ
  t1_us : ℝ

/-- Mirrors `AppState` from `src/types.ts`. -/
structure AppState where
  source : SourceParams
  awg : AWGParams
  dac : DACParams
  mixer : MixerParams
  cable_room : CableParams
  cable_cryo : CableParams
  qubit : QubitParams

/-- `SAMPLE_RATE` constant of the engine. -/
def SAMPLE_RATE : ℝ := 4000

/-- `BUFFER_SIZE` constant of the engine. -/
def BUFFER_SIZE : ℕ := 1024

/-- `IMPEDANCE` constant of the engine. -/
def IMPEDANCE : ℝ := 50

/-- `DEPHASING_SCALE` constant of the engine. -/
def DEPHASING_SCALE : ℝ := 1500.0

/-- `stageIndex` from `engine.ts`: index of a stage id in the pipeline order
`['source','awg','dac','mixer','cable_room','cable_cryo','qubit']`
(`indexOf` returns `-1` when absent). -/
def stageIndex (id : String) : ℤ :=
  if id = "source" then 0
  else if id = "awg" then 1
  else if id = "dac" then 2
  else if id = "mixer" then 3
  else if id = "cable_room" then 4
  else if id = "cable_cryo" then 5
  else if id = "qubit" then 6
  else -1

/-- The cumulative dB accumulator of `getChainGain` in `engine.ts`
(attenuators subtract, amplifiers add, filters contribute nothing). -/
def gaindB (components : List ComponentConfig) : ℝ :=
  components.foldl
    (fun g c =>
      if c.type = "attenuator" then g - c.value
      else if c.type = "amplifier" then g + c.value
      else g) 0

/-- `getChainGain` from `engine.ts`: `10^(gaindB/20)`. -/
noncomputable def getChainGain (components : List ComponentConfig) : ℝ :=
  (10 : ℝ) ^ (gaindB components / 20)

/-- `voltsToBm` from `engine.ts`: dBm of a peak voltage into 50 Ω, with the
small-voltage guard returning `-140`. -/
noncomputable def voltsToBm (vPeak : ℝ) : ℝ :=
  if vPeak < 1e-9 then -140
  else
    let vRMS := vPeak / Real.sqrt 2
    let powerWatts := vRMS * vRMS / IMPEDANCE
    10 * Real.logb 10 powerWatts + 30

/-- Biquad filter state (`class BiquadState` in `engine.ts`). -/
structure BiquadState where
  x1 : ℝ
  x2 : ℝ
  y1 : ℝ
  y2 : ℝ

/-- The zero state a fresh component starts from (`new BiquadState()`). -/
def BiquadState.zero : BiquadState := ⟨0, 0, 0, 0⟩

/-- Normalized biquad coefficients (`interface BiquadCoeffs`). -/
structure BiquadCoeffs where
  b0 : ℝ
  b1 : ℝ
  b2 : ℝ
  a1 : ℝ
  a2 : ℝ

/-- Association-list model of a JS `Map` keyed by component id:
lookup. -/
def lookupA {α : Type} : List (String × α) → String → Option α
  | [], _ => none
  | (k', v) :: t, k => if k' = k then some v else lookupA t k

/-- Association-list model of a JS `Map` keyed by component id:
set (update in place, or append a fresh binding). -/
def setA {α : Type} : List (String × α) → String → α → List (String × α)
  | [], k, v => [(k, v)]
  | (k', v') :: t, k, v =>
      if k' = k then (k, v) :: t else (k', v') :: setA t k v

/-- The mutable `filterStates` map of the engine, threaded explicitly. -/
def FilterMap : Type := List (String × BiquadState)

/-- A coefficient map (`coeffsMap` in `simulateFrame`). -/
def CoeffsMap : Type := List (String × BiquadCoeffs)

/-- Raw (un-normalized) coefficients produced inside `calculateCoeffs`. -/
structure RawCoeffs where
  b0 : ℝ
  b1 : ℝ
  b2 : ℝ
  a0 : ℝ
  a1 : ℝ
  a2 : ℝ

/-- `calculateCoeffs` from `engine.ts` (the default argument `Q = 0.707` is
what every call site uses). -/
noncomputable def calculateCoeffs (type : String) (freqGHz : ℝ) : BiquadCoeffs :=
  let Q : ℝ := 0.707
  let f_viz := max 1 (20 + (freqGHz - 4) * 20)
  let omega := 2 * Real.pi * f_viz / SAMPLE_RATE
  let alpha := Real.sin omega / (2 * Q)
  let cosw := Real.cos omega
  let raw : RawCoeffs :=
    if type = "lowpass" then
      ⟨(1 - cosw) / 2, 1 - cosw, (1 - cosw) / 2, 1 + alpha, -2 * cosw, 1 - alpha⟩
    else if type = "highpass" then
      ⟨(1 + cosw) / 2, -(1 + cosw), (1 + cosw) / 2, 1 + alpha, -2 * cosw, 1 - alpha⟩
    else if type = "notch" then
      ⟨1, -2 * cosw, 1, 1 + alpha, -2 * cosw, 1 - alpha⟩
    else
      ⟨0, 0, 0, 1, 0, 0⟩
  ⟨raw.b0 / raw.a0, raw.b1 / raw.a0, raw.b2 / raw.a0, raw.a1 / raw.a0, raw.a2 / raw.a0⟩

/-- `prepareCoeffs` from `simulateFrame`: insert coefficients for every
filter-kind component of a list into the coefficient map. -/
noncomputable def prepareCoeffs (comps : List ComponentConfig) (m : CoeffsMap) : CoeffsMap :=
  comps.foldl
    (fun acc c =>
      if c.type = "lowpass" ∨ c.type = "highpass" ∨ c.type = "notch" then
        setA acc c.id (calculateCoeffs c.type c.value)
      else acc) m

/-- The full coefficient map built at the top of `simulateFrame`
(room chain first, then cryo chain). -/
noncomputable def prepareCoeffsAll (p : AppState) : CoeffsMap :=
  prepareCoeffs p.cable_cryo.components (prepareCoeffs p.cable_room.components [])

/-- `getBiquadState` from `engine.ts` (lines 38–41): return the stored
state for a component id, inserting a fresh zero state when the id is
missing from the map.  Returns the state together with the (possibly
extended) map, since the JS function mutates the module-level map. -/
def getBiquadState (fm : FilterMap) (id : String) : BiquadState × FilterMap :=
  match lookupA fm id with
  | some st => (st, fm)
  | none => (BiquadState.zero, setA fm id BiquadState.zero)

/-- One step of `processChain` from `engine.ts`, acting on
(signal, filter map, next random index).  `A` is the oracle stream for the
`Math.random()` draws of amplifier noise.  For a component that is neither
an attenuator nor an amplifier the engine first calls `getBiquadState`
(which inserts a zero state if the id is missing) and then applies the
Direct-Form-I biquad only when coefficients exist for the id. -/
noncomputable def processComp (coeffs : CoeffsMap) (A : ℕ → ℝ)
    (acc : ℝ × FilterMap × ℕ) (c : ComponentConfig) : ℝ × FilterMap × ℕ :=
  let s := acc.1
  let fm := acc.2.1
  let k := acc.2.2
  if c.type = "attenuator" then
    (s * (10 : ℝ) ^ (-c.value / 20), fm, k)
  else if c.type = "amplifier" then
    (s * (10 : ℝ) ^ (c.value / 20) + (A k - 0.5) * 0.01 * (c.value / 10), fm, k + 1)
  else
    let g := getBiquadState fm c.id
    let st := g.1
    let fm1 := g.2
    match lookupA coeffs c.id with
    | none => (s, fm1, k)
    | some cf =>
        let y := cf.b0 * s + cf.b1 * st.x1 + cf.b2 * st.x2 - cf.a1 * st.y1 - cf.a2 * st.y2
        (y, setA fm1 c.id ⟨s, st.x1, y, st.y1⟩, k)

/-- `processChain` from `engine.ts`: fold the per-component step over the
ordered component list. -/
noncomputable def processChain (signal : ℝ) (components : List ComponentConfig)
    (coeffs : CoeffsMap) (fm : FilterMap) (A : ℕ → ℝ) (k : ℕ) : ℝ × FilterMap × ℕ :=
  components.foldl (processComp coeffs A) (signal, fm, k)

/-- The DAC quantization applied per sample in stage 2 of `simulateFrame`
(lines 321–326): `round(v · 2^N)/2^N` with `levels = Math.pow(2, resolution)`.
No guard of any kind is applied to `resolution`. -/
noncomputable def dacQuantize (resolution v : ℝ) : ℝ :=
  let levels := (2 : ℝ) ^ resolution
  (round (v * levels) : ℤ) / levels

/-- Modelled from the spec: the quantizer that §4.4 of the spec describes,
with a resolution `N ≤ 0` "guarded (minimum 1 level)", i.e. the level count
clamped from below by 1.  This definition follows the spec's words and is
not code of the repository; it exists only to be compared with
`dacQuantize`. -/
noncomputable def specQuantizeGuarded (resolution v : ℝ) : ℝ :=
  let levels := max 1 ((2 : ℝ) ^ resolution)
  (round (v * levels) : ℤ) / levels

/-- The mixer (stage 3 upconversion) of `simulateFrame` (lines 329–334):
`V_RF = (I·γ)·cos(ω_LO t) − Q·sin(ω_LO t + θ) + V_leak·cos(ω_LO t)`. -/
noncomputable def mixerOut (I Q ampImb phaseImb leak loFreqViz t : ℝ) : ℝ :=
  let loTermI := Real.cos (2 * Real.pi * loFreqViz * t)
  let loTermQ := Real.sin (2 * Real.pi * loFreqViz * t + phaseImb)
  let leakage := leak * loTermI
  I * ampImb * loTermI - Q * loTermQ + leakage

/-- The envelope generator of the waveform loop of `simulateFrame`
(lines 254–305), as a function of the sample index `i` (the loop computes
`relPos = i % period`, `period = BUFFER_SIZE/2 = 512`, `center = 256`).
An unrecognized envelope type (or library window) leaves the initial value
`1.0` in place, exactly as the untaken `if` branches do. -/
noncomputable def envelopeAt (p : AppState) (i : ℕ) : ℝ :=
  let relPos : ℝ := ((i % 512 : ℕ) : ℝ)
  let center : ℝ := 256
  let dist := |relPos - center|
  let pulseWidthSamples := p.source.pulseWidth / 100 * 1024
  let riseTimeSamples := p.source.riseTime / 100 * 1024
  let sigmaSamples := p.source.sigma / 100 * 1024
  if p.source.envelopeType = "cw" then 1.0
  else if p.source.envelopeType = "rectangular" then
    let halfWidth := pulseWidthSamples / 2
    let flatHalf := halfWidth - riseTimeSamples
    if dist ≤ flatHalf then 1.0
    else if dist ≤ halfWidth then
      if riseTimeSamples > 0 then
        0.5 * (1 - Real.cos ((halfWidth - dist) / riseTimeSamples * Real.pi))
      else 1.0
    else 0.0
  else if p.source.envelopeType = "gaussian" then
    let halfWidth := pulseWidthSamples / 2
    if dist ≤ halfWidth then
      Real.exp (-((relPos - center) * (relPos - center)) / (2 * sigmaSamples * sigmaSamples))
    else 0.0
  else if p.source.envelopeType = "library" then
    let halfWidth := pulseWidthSamples / 2
    if dist ≤ halfWidth then
      let winPos := (relPos - (center - halfWidth)) / pulseWidthSamples
      if p.source.libraryWindow = "hanning" then
        0.5 - 0.5 * Real.cos (2 * Real.pi * winPos)
      else if p.source.libraryWindow = "hamming" then
        0.54 - 0.46 * Real.cos (2 * Real.pi * winPos)
      else if p.source.libraryWindow = "blackman" then
        0.42 - 0.5 * Real.cos (2 * Real.pi * winPos) + 0.08 * Real.cos (4 * Real.pi * winPos)
      else 1.0
    else 0.0
  else 1.0

/-- `loFreqViz` of `simulateFrame`: `20 + (loFreq − 4)·20`. -/
def loFreqVizOf (p : AppState) : ℝ := 20 + (p.mixer.loFreq - 4) * 20

/-- `ncoFreqViz` of `simulateFrame`: `ncoFreq · 20`. -/
def ncoFreqVizOf (p : AppState) : ℝ := p.awg.ncoFreq * 20

/-- `carrierFreq` of `simulateFrame`: `loFreqViz + ncoFreqViz`. -/
def carrierFreqOf (p : AppState) : ℝ := loFreqVizOf p + ncoFreqVizOf p

/-- `idealMult` of `simulateFrame` (lines 162–165): cumulative reference
gain for the observation stage. -/
noncomputable def idealMultOf (p : AppState) (stage : String) : ℝ :=
  (if 4 ≤ stageIndex stage then getChainGain p.cable_room.components else 1) *
  (if 5 ≤ stageIndex stage then getChainGain p.cable_cryo.components else 1) *
  (if 6 ≤ stageIndex stage then p.qubit.coupling else 1)

/-- `idealBuffer[i]` of `simulateFrame` (line 309). -/
noncomputable def idealAt (p : AppState) (timeOffset : ℝ) (stage : String) (i : ℕ) : ℝ :=
  let t := (timeOffset + (i : ℝ)) / SAMPLE_RATE
  (p.awg.amp * idealMultOf p stage * envelopeAt p i) *
    Real.cos (2 * Real.pi * carrierFreqOf p * t + p.awg.phase)

/-- One iteration of the waveform loop of `simulateFrame` (lines 248–364),
computing `noisyBuffer[i]` and the updated filter map.

Oracle streams, all local to this sample: `u` models the `Math.random()`
draws (index 0 is the phase-jitter draw of line 314; amplifier draws of the
room chain follow from index 1; the interference spike draws and the cryo
chain draws follow those), `gauss` models the two possible
`boxMullerTransform()` calls (index 0 room thermal, index 1 cryo thermal),
and `pinkv` models the `pinkNoise.next()` call. -/
noncomputable def sampleNoisy (p : AppState) (timeOffset : ℝ) (stage : String)
    (coeffs : CoeffsMap) (u : ℕ → ℝ) (gauss : ℕ → ℝ) (pinkv : ℝ)
    (i : ℕ) (fm : FilterMap) : ℝ × FilterMap :=
  let si := stageIndex stage
  let t := (timeOffset + (i : ℝ)) / SAMPLE_RATE
  let envlp := envelopeAt p i
  let idealSource := p.awg.amp * envlp *
    Real.cos (2 * Real.pi * (20 + (p.source.targetFreq - 4) * 20) * t + p.awg.phase)
  let phaseJitter := (u 0 - 0.5) * p.awg.phaseNoise * 5
  let I0 := p.awg.amp * envlp *
    Real.cos (2 * Real.pi * ncoFreqVizOf p * t + p.awg.phase + phaseJitter)
  let Q0 := p.awg.amp * envlp *
    Real.sin (2 * Real.pi * ncoFreqVizOf p * t + p.awg.phase + phaseJitter)
  let I1 := if 2 ≤ si then dacQuantize p.dac.resolution I0 else I0
  let Q1 := if 2 ≤ si then dacQuantize p.dac.resolution Q0 else Q0
  let s1 := if 1 ≤ si then I0 else idealSource
  let s2 := if 2 ≤ si then I1 else s1
  let s3 := if 3 ≤ si then
      mixerOut I1 Q1 p.mixer.iqAmpImbalance p.mixer.iqPhaseImbalance
        p.mixer.loLeakage (loFreqVizOf p) t
    else s2
  let r4 := if 4 ≤ si then
      processChain s3 p.cable_room.components coeffs fm (fun j => u (1 + j)) 0
    else (s3, fm, 0)
  let k1 := r4.2.2
  let noiseVal := Real.sqrt p.cable_room.temp * 0.002 * gauss 0
  let noiseVal2 := if p.cable_room.noiseType = some "interference" then
      noiseVal + 0.05 * Real.sin (2 * Real.pi * 0.5 * t) +
        (if u (1 + k1) > 0.995 then (u (2 + k1) - 0.5) * 0.5 else 0)
    else noiseVal
  let s5 := if 4 ≤ si then
      r4.1 + noiseVal2 * (p.cable_room.noiseIntensity.getD 1.0)
    else r4.1
  let r6 := if 5 ≤ si then
      processChain s5 p.cable_cryo.components coeffs r4.2.1 (fun j => u (3 + k1 + j)) 0
    else (s5, r4.2.1, 0)
  let s7 := if 5 ≤ si then
      r6.1 + Real.sqrt p.cable_cryo.temp * 0.002 * gauss 1 +
        pinkv * p.cable_cryo.flickerNoise * 0.02
    else r6.1
  let s8 := if 6 ≤ si then s7 * p.qubit.coupling else s7
  (s8, r6.2.1)

/-- The waveform loop of `simulateFrame` run for `n` samples, threading the
filter map.  `U`, `G` and `Pk` are the global oracle streams, specialized
per sample index. -/
noncomputable def runNoisy (p : AppState) (timeOffset : ℝ) (stage : String)
    (coeffs : CoeffsMap) (U G : ℕ → ℕ → ℝ) (Pk : ℕ → ℝ) :
    ℕ → FilterMap → List ℝ × FilterMap
  | 0, fm => ([], fm)
  | n + 1, fm =>
      let prev := runNoisy p timeOffset stage coeffs U G Pk n fm
      let r := sampleNoisy p timeOffset stage coeffs (U n) (G n) (Pk n) n prev.2
      (prev.1 ++ [r.1], r.2)

/-- The `noisyBuffer` contents produced by one `simulateFrame` call (and the
filter map it leaves behind). -/
noncomputable def simulateNoisy (p : AppState) (timeOffset : ℝ) (stage : String)
    (U G : ℕ → ℕ → ℝ) (Pk : ℕ → ℝ) (fm : FilterMap) : List ℝ × FilterMap :=
  runNoisy p timeOffset stage (prepareCoeffsAll p) U G Pk BUFFER_SIZE fm

/-- The `idealBuffer` contents produced by one `simulateFrame` call. -/
noncomputable def simulateIdeal (p : AppState) (timeOffset : ℝ) (stage : String) : List ℝ :=
  (List.range BUFFER_SIZE).map (idealAt p timeOffset stage)

/-- The staged variance pipeline of section 3 of `simulateFrame`
(lines 193–232), with the per-stage contributions abstracted as arguments
(they are instantiated by `accumulatedNoiseVar`). -/
def varPipe (si : ℤ) (jTerm quantTerm roomGain roomNoise intensity cryoGain
    cryoThermal flickerAmp coupling : ℝ) : ℝ :=
  let v1 := if 1 ≤ si then 0 + jTerm else 0
  let v2 := if 2 ≤ si then v1 + quantTerm else v1
  let v3 := if 4 ≤ si then
      v2 * (roomGain * roomGain) + roomNoise * (intensity * intensity)
    else v2
  let v4 := if 5 ≤ si then
      v3 * (cryoGain * cryoGain) + cryoThermal * cryoThermal + flickerAmp * flickerAmp
    else v3
  if 6 ≤ si then v4 * (coupling * coupling) else v4

/-- `accumulatedNoiseVar` of `simulateFrame` (lines 193–232): the analytic
noise-variance propagation.  The `roomNoise` argument is
`thermalStd² (+ 0.0001 when interference)`. -/
noncomputable def accumulatedNoiseVar (p : AppState) (stage : String) : ℝ :=
  varPipe (stageIndex stage)
    (0.5 * p.awg.amp ^ 2 * ((1 / 12) * (p.awg.phaseNoise * 5.0) ^ 2))
    ((1 / (2 : ℝ) ^ p.dac.resolution) ^ 2 / 12)
    (getChainGain p.cable_room.components)
    ((Real.sqrt p.cable_room.temp * 0.002) * (Real.sqrt p.cable_room.temp * 0.002) +
      (if p.cable_room.noiseType = some "interference" then 0.0001 else 0))
    (p.cable_room.noiseIntensity.getD 1.0)
    (getChainGain p.cable_cryo.components)
    (Real.sqrt p.cable_cryo.temp * 0.002)
    (p.cable_cryo.flickerNoise * 0.01)
    p.qubit.coupling

/-- `total_decay_rate` of `simulateFrame` (lines 235–237):
`1/(2·T1) + variance · DEPHASING_SCALE`. -/
noncomputable def totalDecayRate (p : AppState) (stage : String) : ℝ :=
  1 / (2 * p.qubit.t1_us) + accumulatedNoiseVar p stage * DEPHASING_SCALE

/-- `clampedT2` of `simulateFrame` (lines 239–241). -/
noncomputable def clampedT2 (p : AppState) (stage : String) : ℝ :=
  let t2Limit := 2 * p.qubit.t1_us
  let rate := totalDecayRate p stage
  min t2Limit (if rate > 1e-6 then 1 / rate else t2Limit)

/-- The exponential smoothing of `estimatedT2` (lines 243–244): `s` is the
incoming module-level `smoothedT2`, seeded on first use. -/
noncomputable def reportedT2 (p : AppState) (stage : String) (s : ℝ) : ℝ :=
  let c := clampedT2 p stage
  let s1 := if s = 0 then c else s
  s1 * 0.95 + c * 0.05

/-- `Teff` of `simulateFrame` (lines 177–190): cascaded effective noise
temperature at the observation stage. -/
noncomputable def effectiveNoiseTemp (p : AppState) (stage : String) : ℝ :=
  let roomGain := getChainGain p.cable_room.components
  let cryoGain := getChainGain p.cable_cryo.components
  let roomNoiseAtQubit := p.cable_room.temp * roomGain * cryoGain
  let cryoNoiseAtQubit := p.cable_cryo.temp * (1 - cryoGain)
  if stage = "cable_room" then p.cable_room.temp
  else if stage = "cable_cryo" ∨ stage = "qubit" then
    roomNoiseAtQubit + cryoNoiseAtQubit
  else 0

/-- `signalV` of `simulateFrame` (lines 171–174): the peak voltage
propagated through the active gain stages. -/
noncomputable def signalVOf (p : AppState) (stage : String) : ℝ :=
  let si := stageIndex stage
  let v0 := p.awg.amp
  let v1 := if 4 ≤ si then v0 * getChainGain p.cable_room.components else v0
  let v2 := if 5 ≤ si then v1 * getChainGain p.cable_cryo.components else v1
  if 6 ≤ si then v2 * p.qubit.coupling else v2

/-- `signalPowerdBm` of `simulateFrame` (line 175). -/
noncomputable def signalPowerdBm (p : AppState) (stage : String) : ℝ :=
  voltsToBm (signalVOf p stage)

/-- `maxAmp` of `simulateFrame` (lines 367–370). -/
noncomputable def maxAmplitudeOf (p : AppState) (stage : String) : ℝ :=
  let si := stageIndex stage
  let m0 := p.awg.amp * 1.5
  let m1 := if 4 ≤ si then m0 * getChainGain p.cable_room.components else m0
  let m2 := if 5 ≤ si then m1 * getChainGain p.cable_cryo.components else m1
  max m2 0.05

/-- The value-level content of `SimulationResult`. -/
structure SimulationResult where
  idealBuffer : List ℝ
  noisyBuffer : List ℝ
  maxAmplitude : ℝ
  estimatedT2 : ℝ
  signalPowerdBm : ℝ
  effectiveNoiseTemp : ℝ

/-- `simulateFrame` from `engine.ts`, assembled from the pieces above.  The
persistent module state (filter map, smoothed T2) is passed in and the
updated copies are returned alongside the result. -/
noncomputable def simulateFrame (p : AppState) (timeOffset : ℝ) (stage : String)
    (U G : ℕ → ℕ → ℝ) (Pk : ℕ → ℝ) (fm : FilterMap) (smoothed : ℝ) :
    SimulationResult × FilterMap × ℝ :=
  let run := simulateNoisy p timeOffset stage U G Pk fm
  let t2 := reportedT2 p stage smoothed
  (⟨simulateIdeal p timeOffset stage, run.1, maxAmplitudeOf p stage, t2,
     signalPowerdBm p stage, effectiveNoiseTemp p stage⟩, run.2, t2)

/-- The (jitter-free) in-phase NCO sample `I_nco` of stage 1 when the phase
noise is zero; used to express the noisy buffer in closed form. -/
noncomputable def awgI (p : AppState) (timeOffset : ℝ) (i : ℕ) : ℝ :=
  p.awg.amp * envelopeAt p i *
    Real.cos (2 * Real.pi * ncoFreqVizOf p * ((timeOffset + (i : ℝ)) / SAMPLE_RATE) + p.awg.phase)

/-- The (jitter-free) quadrature NCO sample `Q_nco` of stage 1 when the
phase noise is zero. -/
noncomputable def awgQ (p : AppState) (timeOffset : ℝ) (i : ℕ) : ℝ :=
  p.awg.amp * envelopeAt p i *
    Real.sin (2 * Real.pi * ncoFreqVizOf p * ((timeOffset + (i : ℝ)) / SAMPLE_RATE) + p.awg.phase)

/-- Closed form of `noisyBuffer[i]` at the qubit stage when every noise
source, mixer impairment and chain effect is switched off: the quantized
I/Q pair upconverted by the ideal image-reject equation. -/
noncomputable def cleanNoisyAt (p : AppState) (timeOffset : ℝ) (i : ℕ) : ℝ :=
  let t := (timeOffset + (i : ℝ)) / SAMPLE_RATE
  dacQuantize p.dac.resolution (awgI p timeOffset i) * Real.cos (2 * Real.pi * loFreqVizOf p * t)
  - dacQuantize p.dac.resolution (awgQ p timeOffset i) * Real.sin (2 * Real.pi * loFreqVizOf p * t)

/-- Update only the AWG phase noise of a configuration. -/
def withPhaseNoise (p : AppState) (x : ℝ) : AppState :=
  { p with awg := { p.awg with phaseNoise := x } }

/-- Update only the room-temperature-stage physical temperature. -/
def withRoomTemp (p : AppState) (x : ℝ) : AppState :=
  { p with cable_room := { p.cable_room with temp := x } }

/-- Update only the cryogenic-stage physical temperature. -/
def withCryoTemp (p : AppState) (x : ℝ) : AppState :=
  { p with cable_cryo := { p.cable_cryo with temp := x } }

/-- Update only the cryogenic-stage flicker-noise intensity. -/
def withFlicker (p : AppState) (x : ℝ) : AppState :=
  { p with cable_cryo := { p.cable_cryo with flickerNoise := x } }

/-- A concrete configuration used by witnesses and counterexamples:
continuous-wave envelope, amplitude 0.3 V, DAC resolution 1 bit, zero
phase noise, zero temperatures, no interference, zero flicker, ideal
mixer, empty transmission-line chains, coupling 1, T1 = 30 µs. -/
def cfgW : AppState :=
  { source := { targetFreq := 4, envelopeType := "cw", pulseWidth := 50,
                riseTime := 0, sigma := 10, libraryWindow := "hanning" }
    awg := { ncoFreq := 0, amp := 0.3, phase := 0, phaseNoise := 0 }
    dac := { resolution := 1, sampleJitter := 0 }
    mixer := { loFreq := 4, loLeakage := 0, iqAmpImbalance := 1, iqPhaseImbalance := 0 }
    cable_room := { temp := 0, flickerNoise := 0, noiseType := none,
                    noiseIntensity := none, components := [] }
    cable_cryo := { temp := 0, flickerNoise := 0, noiseType := none,
                    noiseIntensity := none, components := [] }
    qubit := { coupling := 1, t1_us := 30 } }

/-- Variant of `cfgW` with a very small AWG amplitude (10 nV), used to
exercise the low-power branch of `voltsToBm`. -/
def cfgTiny : AppState :=
  { cfgW with awg := { cfgW.awg with amp := 1e-8 } }

/-! ## Helper lemmas -/

theorem foldl_add_shift (f : ComponentConfig → ℝ) (l : List ComponentConfig) :
    ∀ init : ℝ, l.foldl (fun g c => g + f c) init = init + (l.map f).sum := by
  induction l with
  | nil => intro init; simp
  | cons c t ih => intro init; simp [List.foldl_cons, ih, List.sum_cons]; ring

theorem gaindB_eq_sum (comps : List ComponentConfig) :
    gaindB comps = (comps.map fun c =>
      if c.type = "attenuator" then -c.value
      else if c.type = "amplifier" then c.value else 0).sum := by
  have hstep : (fun (g : ℝ) (c : ComponentConfig) =>
      if c.type = "attenuator" then g - c.value
      else if c.type = "amplifier" then g + c.value else g)
      = fun (g : ℝ) (c : ComponentConfig) => g +
          (if c.type = "attenuator" then -c.value
           else if c.type = "amplifier" then c.value else 0) := by
    funext g c
    by_cases h1 : c.type = "attenuator" <;> by_cases h2 : c.type = "amplifier" <;>
      simp [h1, h2] <;> ring
  rw [gaindB, hstep, foldl_add_shift, zero_add]

theorem gaindB_nil : gaindB [] = 0 := rfl

theorem getChainGain_nil : getChainGain [] = 1 := by
  simp [getChainGain, gaindB_nil, Real.rpow_zero]

theorem gaindB_cons (c : ComponentConfig) (t : List ComponentConfig) :
    gaindB (c :: t) =
      (if c.type = "attenuator" then -c.value
       else if c.type = "amplifier" then c.value else 0) + gaindB t := by
  rw [gaindB_eq_sum, gaindB_eq_sum, List.map_cons, List.sum_cons]

theorem gaindB_attenuators (comps : List ComponentConfig)
    (h : ∀ c ∈ comps, c.type = "attenuator") :
    gaindB comps = -((comps.map ComponentConfig.value).sum) := by
  induction comps with
  | nil => simp [gaindB_nil]
  | cons c t ih =>
      rw [gaindB_cons, if_pos (h c (by simp)), ih (fun d hd => h d (by simp [hd]))]
      simp
      ring

theorem processChain_attenuators (comps : List ComponentConfig)
    (h : ∀ c ∈ comps, c.type = "attenuator")
    (s : ℝ) (cf : CoeffsMap) (fm : FilterMap) (A : ℕ → ℝ) (k : ℕ) :
    processChain s comps cf fm A k = (s * getChainGain comps, fm, k) := by
  induction comps generalizing s with
  | nil => simp [processChain, getChainGain_nil]
  | cons c t ih =>
      have hc : c.type = "attenuator" := h c (by simp)
      simp only [processChain, List.foldl_cons] at *
      rw [show processComp cf A (s, fm, k) c = (s * (10 : ℝ) ^ (-c.value / 20), fm, k) by
        simp [processComp, hc]]
      rw [ih (fun d hd => h d (by simp [hd]))]
      have : s * (10 : ℝ) ^ (-c.value / 20) * getChainGain t = s * getChainGain (c :: t) := by
        rw [getChainGain, getChainGain, gaindB_cons, if_pos hc]
        rw [show (-c.value + gaindB t) / 20 = -c.value / 20 + gaindB t / 20 by ring]
        rw [Real.rpow_add (by norm_num)]
        ring
      rw [this]

theorem lookupA_setA_self {α : Type} (m : List (String × α)) (k : String) (v : α) :
    lookupA (setA m k v) k = some v := by
  induction m with
  | nil => simp [setA, lookupA]
  | cons p t ih =>
      by_cases h : p.1 = k
      · simp [setA, h, lookupA]
      · simp [setA, h, lookupA, ih]

theorem lookupA_setA_other {α : Type} (m : List (String × α)) (k k' : String) (v : α)
    (h : k ≠ k') : lookupA (setA m k v) k' = lookupA m k' := by
  induction m with
  | nil => simp [setA, lookupA, h]
  | cons p t ih =>
      by_cases hp : p.1 = k
      · simp [setA, hp, lookupA, h]
      · simp [setA, hp, lookupA, ih]

theorem lookupA_isSome_setA {α : Type} (m : List (String × α)) (k k' : String) (v : α)
    (h : (lookupA m k').isSome) : (lookupA (setA m k v) k').isSome := by
  by_cases hk : k = k'
  · rw [hk, lookupA_setA_self]; rfl
  · rwa [lookupA_setA_other m k k' v hk]

theorem quantize_error (N v : ℝ) : |dacQuantize N v - v| ≤ (2 : ℝ) ^ (-N) / 2 := by
  have hL : (0 : ℝ) < (2 : ℝ) ^ N := Real.rpow_pos_of_pos (by norm_num) N
  have hL' : (2 : ℝ) ^ N ≠ 0 := ne_of_gt hL
  rw [dacQuantize]
  have key : ((round (v * (2 : ℝ) ^ N) : ℤ) : ℝ) / (2 : ℝ) ^ N - v
      = (((round (v * (2 : ℝ) ^ N) : ℤ) : ℝ) - v * (2 : ℝ) ^ N) / (2 : ℝ) ^ N := by
    rw [sub_div]
    congr 1
    rw [mul_div_assoc, div_self hL', mul_one]
  rw [key, abs_div, abs_of_pos hL]
  have hr : |((round (v * (2 : ℝ) ^ N) : ℤ) : ℝ) - v * (2 : ℝ) ^ N| ≤ 1 / 2 := by
    rw [abs_sub_comm]
    exact abs_sub_round (v * (2 : ℝ) ^ N)
  calc |((round (v * (2 : ℝ) ^ N) : ℤ) : ℝ) - v * (2 : ℝ) ^ N| / (2 : ℝ) ^ N
      ≤ (1 / 2) / (2 : ℝ) ^ N := by gcongr
    _ = (2 : ℝ) ^ (-N) / 2 := by
        rw [Real.rpow_neg (by norm_num)]
        field_simp
        ring

theorem stageIndex_qubit : stageIndex "qubit" = 6 := rfl

theorem forall₂_map_map {R : ℝ → ℝ → Prop} (l : List ℕ) (f g : ℕ → ℝ)
    (h : ∀ x ∈ l, R (f x) (g x)) : List.Forall₂ R (l.map f) (l.map g) := by
  induction l with
  | nil => simp
  | cons a t ih => simp_all

theorem sampleNoisy_clean (p : AppState) (timeOffset : ℝ) (cf : CoeffsMap)
    (u gauss : ℕ → ℝ) (pinkv : ℝ) (i : ℕ) (fm : FilterMap)
    (hpn : p.awg.phaseNoise = 0) (htr : p.cable_room.temp = 0)
    (htc : p.cable_cryo.temp = 0)
    (hint : p.cable_room.noiseType ≠ some "interference")
    (hfl : p.cable_cryo.flickerNoise = 0)
    (hga : p.mixer.iqAmpImbalance = 1) (hph : p.mixer.iqPhaseImbalance = 0)
    (hlk : p.mixer.loLeakage = 0) (hcp : p.qubit.coupling = 1)
    (hra : ∀ c ∈ p.cable_room.components, c.type = "attenuator")
    (hca : ∀ c ∈ p.cable_cryo.components, c.type = "attenuator")
    (hrg : getChainGain p.cable_room.components = 1)
    (hcg : getChainGain p.cable_cryo.components = 1) :
    sampleNoisy p timeOffset "qubit" cf u gauss pinkv i fm = (cleanNoisyAt p timeOffset i, fm) := by
  have hR : ∀ (s : ℝ) (fm' : FilterMap) (A : ℕ → ℝ) (k : ℕ),
      processChain s p.cable_room.components cf fm' A k = (s * 1, fm', k) := by
    intro s fm' A k
    rw [processChain_attenuators _ hra, hrg]
  have hC : ∀ (s : ℝ) (fm' : FilterMap) (A : ℕ → ℝ) (k : ℕ),
      processChain s p.cable_cryo.components cf fm' A k = (s * 1, fm', k) := by
    intro s fm' A k
    rw [processChain_attenuators _ hca, hcg]
  norm_num [sampleNoisy, stageIndex_qubit, hR, hC, hpn, htr, htc, hint, hfl,
    hga, hph, hlk, hcp, mixerOut, cleanNoisyAt, awgI, awgQ]

theorem runNoisy_clean (p : AppState) (timeOffset : ℝ) (cf : CoeffsMap)
    (U G : ℕ → ℕ → ℝ) (Pk : ℕ → ℝ)
    (hpn : p.awg.phaseNoise = 0) (htr : p.cable_room.temp = 0)
    (htc : p.cable_cryo.temp = 0)
    (hint : p.cable_room.noiseType ≠ some "interference")
    (hfl : p.cable_cryo.flickerNoise = 0)
    (hga : p.mixer.iqAmpImbalance = 1) (hph : p.mixer.iqPhaseImbalance = 0)
    (hlk : p.mixer.loLeakage = 0) (hcp : p.qubit.coupling = 1)
    (hra : ∀ c ∈ p.cable_room.components, c.type = "attenuator")
    (hca : ∀ c ∈ p.cable_cryo.components, c.type = "attenuator")
    (hrg : getChainGain p.cable_room.components = 1)
    (hcg : getChainGain p.cable_cryo.components = 1) :
    ∀ (n : ℕ) (fm : FilterMap),
      runNoisy p timeOffset "qubit" cf U G Pk n fm
        = ((List.range n).map (cleanNoisyAt p timeOffset), fm) := by
  intro n
  induction n with
  | zero => intro fm; simp [runNoisy]
  | succ m ih =>
      intro fm
      simp only [runNoisy, ih fm,
        sampleNoisy_clean p timeOffset cf (U m) (G m) (Pk m) m _
          hpn htr htc hint hfl hga hph hlk hcp hra hca hrg hcg]
      simp [List.range_succ]

theorem idealMult_qubit_one (p : AppState)
    (hcp : p.qubit.coupling = 1)
    (hrg : getChainGain p.cable_room.components = 1)
    (hcg : getChainGain p.cable_cryo.components = 1) :
    idealMultOf p "qubit" = 1 := by
  norm_num [idealMultOf, stageIndex_qubit, hrg, hcg, hcp]

theorem cleanNoisy_close (p : AppState) (timeOffset : ℝ) (i : ℕ)
    (hcp : p.qubit.coupling = 1)
    (hrg : getChainGain p.cable_room.components = 1)
    (hcg : getChainGain p.cable_cryo.components = 1) :
    |cleanNoisyAt p timeOffset i - idealAt p timeOffset "qubit" i|
      ≤ (2 : ℝ) ^ (-p.dac.resolution) := by
  have hideal : idealAt p timeOffset "qubit" i
      = awgI p timeOffset i *
          Real.cos (2 * Real.pi * loFreqVizOf p * ((timeOffset + (i : ℝ)) / SAMPLE_RATE))
        - awgQ p timeOffset i *
          Real.sin (2 * Real.pi * loFreqVizOf p * ((timeOffset + (i : ℝ)) / SAMPLE_RATE)) := by
    rw [idealAt, idealMult_qubit_one p hcp hrg hcg]
    rw [show 2 * Real.pi * carrierFreqOf p * ((timeOffset + (i : ℝ)) / SAMPLE_RATE) + p.awg.phase
        = (2 * Real.pi * ncoFreqVizOf p * ((timeOffset + (i : ℝ)) / SAMPLE_RATE) + p.awg.phase)
          + 2 * Real.pi * loFreqVizOf p * ((timeOffset + (i : ℝ)) / SAMPLE_RATE) by
      rw [carrierFreqOf]; ring]
    rw [Real.cos_add, awgI, awgQ]
    ring
  rw [cleanNoisyAt, hideal]
  have eI := quantize_error p.dac.resolution (awgI p timeOffset i)
  have eQ := quantize_error p.dac.resolution (awgQ p timeOffset i)
  have hc := Real.abs_cos_le_one
    (2 * Real.pi * loFreqVizOf p * ((timeOffset + (i : ℝ)) / SAMPLE_RATE))
  have hs := Real.abs_sin_le_one
    (2 * Real.pi * loFreqVizOf p * ((timeOffset + (i : ℝ)) / SAMPLE_RATE))
  set qI := dacQuantize p.dac.resolution (awgI p timeOffset i)
  set qQ := dacQuantize p.dac.resolution (awgQ p timeOffset i)
  set aI := awgI p timeOffset i
  set aQ := awgQ p timeOffset i
  set c := Real.cos (2 * Real.pi * loFreqVizOf p * ((timeOffset + (i : ℝ)) / SAMPLE_RATE))
  set s := Real.sin (2 * Real.pi * loFreqVizOf p * ((timeOffset + (i : ℝ)) / SAMPLE_RATE))
  have h1 : qI * c - qQ * s - (aI * c - aQ * s) = (qI - aI) * c - (qQ - aQ) * s := by ring
  rw [h1]
  calc |(qI - aI) * c - (qQ - aQ) * s|
      ≤ |(qI - aI) * c| + |(qQ - aQ) * s| := abs_sub _ _
    _ = |qI - aI| * |c| + |qQ - aQ| * |s| := by rw [abs_mul, abs_mul]
    _ ≤ ((2 : ℝ) ^ (-p.dac.resolution) / 2) * 1
        + ((2 : ℝ) ^ (-p.dac.resolution) / 2) * 1 := by
        gcongr
    _ = (2 : ℝ) ^ (-p.dac.resolution) := by ring

theorem varPipe_mono (si : ℤ) (j j' q rg rn rn' int cg ct ct' fa fa' cp : ℝ)
    (hj : j ≤ j') (hrn : rn ≤ rn') (hct : ct * ct ≤ ct' * ct')
    (hfa : fa * fa ≤ fa' * fa') :
    varPipe si j q rg rn int cg ct fa cp ≤ varPipe si j' q rg rn' int cg ct' fa' cp := by
  simp only [varPipe]
  have h1 : (if 1 ≤ si then 0 + j else 0) ≤ (if 1 ≤ si then 0 + j' else 0) := by
    split <;> linarith
  have h2 : (if 2 ≤ si then (if 1 ≤ si then 0 + j else 0) + q else (if 1 ≤ si then 0 + j else 0))
      ≤ (if 2 ≤ si then (if 1 ≤ si then 0 + j' else 0) + q else (if 1 ≤ si then 0 + j' else 0)) := by
    split <;> linarith
  set v2 := if 2 ≤ si then (if 1 ≤ si then 0 + j else 0) + q else (if 1 ≤ si then 0 + j else 0)
  set v2' := if 2 ≤ si then (if 1 ≤ si then 0 + j' else 0) + q else (if 1 ≤ si then 0 + j' else 0)
  have h3 : (if 4 ≤ si then v2 * (rg * rg) + rn * (int * int) else v2)
      ≤ (if 4 ≤ si then v2' * (rg * rg) + rn' * (int * int) else v2') := by
    split
    · have g1 : v2 * (rg * rg) ≤ v2' * (rg * rg) :=
        mul_le_mul_of_nonneg_right h2 (mul_self_nonneg rg)
      have g2 : rn * (int * int) ≤ rn' * (int * int) :=
        mul_le_mul_of_nonneg_right hrn (mul_self_nonneg int)
      linarith
    · exact h2
  set v3 := if 4 ≤ si then v2 * (rg * rg) + rn * (int * int) else v2
  set v3' := if 4 ≤ si then v2' * (rg * rg) + rn' * (int * int) else v2'
  have h4 : (if 5 ≤ si then v3 * (cg * cg) + ct * ct + fa * fa else v3)
      ≤ (if 5 ≤ si then v3' * (cg * cg) + ct' * ct' + fa' * fa' else v3') := by
    split
    · have g1 : v3 * (cg * cg) ≤ v3' * (cg * cg) :=
        mul_le_mul_of_nonneg_right h3 (mul_self_nonneg cg)
      linarith
    · exact h3
  set v4 := if 5 ≤ si then v3 * (cg * cg) + ct * ct + fa * fa else v3
  set v4' := if 5 ≤ si then v3' * (cg * cg) + ct' * ct' + fa' * fa' else v3'
  split
  · exact mul_le_mul_of_nonneg_right h4 (mul_self_nonneg cp)
  · exact h4

theorem clampedT2_le (p : AppState) (stage : String) :
    clampedT2 p stage ≤ 2 * p.qubit.t1_us := min_le_left _ _

theorem clampedT2_anti (p p' : AppState) (stage : String)
    (ht1 : p'.qubit.t1_us = p.qubit.t1_us)
    (hr : totalDecayRate p stage ≤ totalDecayRate p' stage) :
    clampedT2 p' stage ≤ clampedT2 p stage := by
  simp only [clampedT2, ht1]
  set a := totalDecayRate p stage
  set b := totalDecayRate p' stage
  by_cases hb : b > 1e-6
  · by_cases ha : a > 1e-6
    · rw [if_pos ha, if_pos hb]
      have h0 : (0 : ℝ) < a := lt_trans (by norm_num) ha
      exact min_le_min le_rfl (one_div_le_one_div_of_le h0 hr)
    · rw [if_neg ha, if_pos hb, min_self]
      exact min_le_left _ _
  · have ha : ¬a > 1e-6 := fun h => hb (lt_of_lt_of_le h hr)
    rw [if_neg ha, if_neg hb]

theorem reportedT2_mono (p p' : AppState) (stage : String) (s : ℝ)
    (hc : clampedT2 p' stage ≤ clampedT2 p stage) :
    reportedT2 p' stage s ≤ reportedT2 p stage s := by
  simp only [reportedT2]
  split <;> linarith

theorem reportedT2_le (p : AppState) (stage : String) (s : ℝ)
    (hs : s ≤ 2 * p.qubit.t1_us) :
    reportedT2 p stage s ≤ 2 * p.qubit.t1_us := by
  have hc := clampedT2_le p stage
  simp only [reportedT2]
  split <;> linarith

theorem totalDecayRate_mono (p p' : AppState) (stage : String)
    (ht1 : p'.qubit.t1_us = p.qubit.t1_us)
    (hv : accumulatedNoiseVar p stage ≤ accumulatedNoiseVar p' stage) :
    totalDecayRate p stage ≤ totalDecayRate p' stage := by
  simp only [totalDecayRate, ht1]
  have : accumulatedNoiseVar p stage * DEPHASING_SCALE
      ≤ accumulatedNoiseVar p' stage * DEPHASING_SCALE :=
    mul_le_mul_of_nonneg_right hv (by norm_num [DEPHASING_SCALE])
  linarith

theorem accumVar_mono_pn (p : AppState) (stage : String) (q : ℝ)
    (h0 : 0 ≤ p.awg.phaseNoise) (h : p.awg.phaseNoise ≤ q) :
    accumulatedNoiseVar p stage ≤ accumulatedNoiseVar (withPhaseNoise p q) stage := by
  simp only [accumulatedNoiseVar, withPhaseNoise]
  apply varPipe_mono
  · have h5 : p.awg.phaseNoise * 5.0 ≤ q * 5.0 :=
      mul_le_mul_of_nonneg_right h (by norm_num)
    have h52 : (p.awg.phaseNoise * 5.0) ^ 2 ≤ (q * 5.0) ^ 2 :=
      pow_le_pow_left₀ (by positivity) h5 2
    have : (1 / 12 : ℝ) * (p.awg.phaseNoise * 5.0) ^ 2 ≤ (1 / 12) * (q * 5.0) ^ 2 := by
      linarith
    exact mul_le_mul_of_nonneg_left this (by positivity)
  · exact le_rfl
  · exact le_rfl
  · exact le_rfl

theorem accumVar_mono_roomTemp (p : AppState) (stage : String) (q : ℝ)
    (h : p.cable_room.temp ≤ q) :
    accumulatedNoiseVar p stage ≤ accumulatedNoiseVar (withRoomTemp p q) stage := by
  simp only [accumulatedNoiseVar, withRoomTemp]
  apply varPipe_mono
  · exact le_rfl
  · have hs : Real.sqrt p.cable_room.temp * 0.002 ≤ Real.sqrt q * 0.002 :=
      mul_le_mul_of_nonneg_right (Real.sqrt_le_sqrt h) (by norm_num)
    have := mul_self_le_mul_self (by positivity) hs
    linarith
  · exact le_rfl
  · exact le_rfl

theorem accumVar_mono_cryoTemp (p : AppState) (stage : String) (q : ℝ)
    (h : p.cable_cryo.temp ≤ q) :
    accumulatedNoiseVar p stage ≤ accumulatedNoiseVar (withCryoTemp p q) stage := by
  simp only [accumulatedNoiseVar, withCryoTemp]
  apply varPipe_mono
  · exact le_rfl
  · exact le_rfl
  · have hs : Real.sqrt p.cable_cryo.temp * 0.002 ≤ Real.sqrt q * 0.002 :=
      mul_le_mul_of_nonneg_right (Real.sqrt_le_sqrt h) (by norm_num)
    exact mul_self_le_mul_self (by positivity) hs
  · exact le_rfl

theorem accumVar_mono_flicker (p : AppState) (stage : String) (q : ℝ)
    (h0 : 0 ≤ p.cable_cryo.flickerNoise) (h : p.cable_cryo.flickerNoise ≤ q) :
    accumulatedNoiseVar p stage ≤ accumulatedNoiseVar (withFlicker p q) stage := by
  simp only [accumulatedNoiseVar, withFlicker]
  apply varPipe_mono
  · exact le_rfl
  · exact le_rfl
  · exact le_rfl
  · have hs : p.cable_cryo.flickerNoise * 0.01 ≤ q * 0.01 :=
      mul_le_mul_of_nonneg_right h (by norm_num)
    exact mul_self_le_mul_self (by positivity) hs

theorem lookupA_prepareCoeffs (comps : List ComponentConfig) (m : CoeffsMap) (id : String)
    (h : ∀ d ∈ comps, d.id = id →
      ¬(d.type = "lowpass" ∨ d.type = "highpass" ∨ d.type = "notch")) :
    lookupA (prepareCoeffs comps m) id = lookupA m id := by
  induction comps generalizing m with
  | nil => simp [prepareCoeffs]
  | cons c t ih =>
      simp only [prepareCoeffs, List.foldl_cons] at *
      rw [ih _ (fun d hd => h d (by simp [hd]))]
      split
      · rename_i hft
        have hne : c.id ≠ id := fun he => h c (by simp) he hft
        exact lookupA_setA_other m c.id id _ hne
      · rfl

theorem processComp_unknown (cf : CoeffsMap) (A : ℕ → ℝ) (s : ℝ) (fm : FilterMap)
    (k : ℕ) (c : ComponentConfig)
    (hunk : ¬(c.type = "attenuator" ∨ c.type = "amplifier" ∨ c.type = "lowpass"
      ∨ c.type = "highpass" ∨ c.type = "notch"))
    (hcf : lookupA cf c.id = none) :
    processComp cf A (s, fm, k) c = (s, (getBiquadState fm c.id).2, k) := by
  push_neg at hunk
  obtain ⟨h1, h2, _, _, _⟩ := hunk
  simp [processComp, h1, h2, hcf]

theorem processComp_preserves (cf : CoeffsMap) (A : ℕ → ℝ)
    (acc : ℝ × FilterMap × ℕ) (c : ComponentConfig) (id : String)
    (h : (lookupA acc.2.1 id).isSome) :
    (lookupA (processComp cf A acc c).2.1 id).isSome := by
  simp only [processComp]
  split
  · exact h
  · split
    · exact h
    · have hg : (lookupA (getBiquadState acc.2.1 c.id).2 id).isSome := by
        rw [getBiquadState]
        split
        · exact h
        · exact lookupA_isSome_setA _ _ _ _ h
      split
      · exact hg
      · exact lookupA_isSome_setA _ _ _ _ hg

theorem processChain_preserves (comps : List ComponentConfig) (cf : CoeffsMap)
    (A : ℕ → ℝ) (id : String) :
    ∀ (acc : ℝ × FilterMap × ℕ), (lookupA acc.2.1 id).isSome →
      (lookupA (comps.foldl (processComp cf A) acc).2.1 id).isSome := by
  induction comps with
  | nil => intro acc h; simpa using h
  | cons c t ih =>
      intro acc h
      simp only [List.foldl_cons]
      exact ih _ (processComp_preserves cf A acc c id h)

theorem sampleNoisy_preserves (p : AppState) (timeOffset : ℝ) (stage : String)
    (cf : CoeffsMap) (u gauss : ℕ → ℝ) (pinkv : ℝ) (i : ℕ) (fm : FilterMap) (id : String)
    (h : (lookupA fm id).isSome) :
    (lookupA (sampleNoisy p timeOffset stage cf u gauss pinkv i fm).2 id).isSome := by
  simp only [sampleNoisy]
  by_cases h4 : (4 : ℤ) ≤ stageIndex stage <;>
    by_cases h5 : (5 : ℤ) ≤ stageIndex stage <;>
      simp only [h4, h5, if_true, if_false, ite_true, ite_false]
  · exact processChain_preserves _ _ _ _ _
      (processChain_preserves _ _ _ _ _ h)
  · exact processChain_preserves _ _ _ _ _ h
  · exact processChain_preserves _ _ _ _ _ h
  · exact h

theorem runNoisy_preserves (p : AppState) (timeOffset : ℝ) (stage : String)
    (cf : CoeffsMap) (U G : ℕ → ℕ → ℝ) (Pk : ℕ → ℝ) (id : String) :
    ∀ (n : ℕ) (fm : FilterMap), (lookupA fm id).isSome →
      (lookupA (runNoisy p timeOffset stage cf U G Pk n fm).2 id).isSome := by
  intro n
  induction n with
  | zero => intro fm h; simpa [runNoisy] using h
  | succ m ih =>
      intro fm h
      simp only [runNoisy]
      exact sampleNoisy_preserves _ _ _ _ _ _ _ _ _ _ (ih fm h)

theorem sampleNoisy_empty_chains (p : AppState) (timeOffset : ℝ) (stage : String)
    (cf : CoeffsMap) (u gauss : ℕ → ℝ) (pinkv : ℝ) (i : ℕ) (fm : FilterMap)
    (hroom : p.cable_room.components = []) (hcryo : p.cable_cryo.components = []) :
    (sampleNoisy p timeOffset stage cf u gauss pinkv i fm).2 = fm := by
  simp [sampleNoisy, hroom, hcryo, processChain]

theorem runNoisy_empty_chains (p : AppState) (timeOffset : ℝ) (stage : String)
    (cf : CoeffsMap) (U G : ℕ → ℕ → ℝ) (Pk : ℕ → ℝ)
    (hroom : p.cable_room.components = []) (hcryo : p.cable_cryo.components = []) :
    ∀ (n : ℕ) (fm : FilterMap),
      (runNoisy p timeOffset stage cf U G Pk n fm).2 = fm := by
  intro n
  induction n with
  | zero => intro fm; simp [runNoisy]
  | succ m ih =>
      intro fm
      simp only [runNoisy]
      rw [sampleNoisy_empty_chains p timeOffset stage cf (U m) (G m) (Pk m) m _ hroom hcryo,
        ih fm]

theorem cfgW_roomGain : getChainGain cfgW.cable_room.components = 1 := getChainGain_nil

theorem cfgW_cryoGain : getChainGain cfgW.cable_cryo.components = 1 := getChainGain_nil

theorem cfgW_envelope0 : envelopeAt cfgW 0 = 1 := by
  norm_num [envelopeAt, cfgW]

theorem cfgW_awgI0 : awgI cfgW 0 0 = 0.3 := by
  unfold awgI
  rw [cfgW_envelope0]
  norm_num [cfgW, ncoFreqVizOf, SAMPLE_RATE, Real.cos_zero]

theorem cfgW_awgQ0 : awgQ cfgW 0 0 = 0 := by
  unfold awgQ
  rw [cfgW_envelope0]
  norm_num [cfgW, ncoFreqVizOf, SAMPLE_RATE, Real.sin_zero]

theorem round_three_fifths : round ((3 : ℝ) / 5) = 1 := by
  rw [round_eq]
  norm_num [Int.floor_eq_iff]

theorem cfgW_quantI : dacQuantize cfgW.dac.resolution 0.3 = 1 / 2 := by
  have hres : cfgW.dac.resolution = 1 := rfl
  rw [hres, dacQuantize]
  norm_num [Real.rpow_one, round_three_fifths]

theorem cfgW_quantQ : dacQuantize cfgW.dac.resolution 0 = 0 := by
  have hres : cfgW.dac.resolution = 1 := rfl
  rw [hres, dacQuantize]
  norm_num [Real.rpow_one]

theorem cfgW_clean0 : cleanNoisyAt cfgW 0 0 = 1 / 2 := by
  rw [cleanNoisyAt]
  rw [cfgW_awgI0, cfgW_awgQ0, cfgW_quantI, cfgW_quantQ]
  norm_num [SAMPLE_RATE, Real.cos_zero, Real.sin_zero]

theorem cfgW_ideal0 : idealAt cfgW 0 "qubit" 0 = 3 / 10 := by
  unfold idealAt
  rw [idealMult_qubit_one cfgW rfl cfgW_roomGain cfgW_cryoGain, cfgW_envelope0]
  norm_num [cfgW, carrierFreqOf, loFreqVizOf, ncoFreqVizOf, SAMPLE_RATE, Real.cos_zero]

/-! ## Claim theorems -/

set_option maxRecDepth 8000 in
/-- Claim C1 (amended): with phase noise 0, cable temperatures 0,
interference disabled, flicker 0, ideal mixer (γ=1, θ=0, no LO leakage),
coupling 1, and both transmission-line chains made only of attenuators with
net gain 1, each `noisyBuffer` sample produced by `simulateFrame` at the
qubit observation stage differs from the corresponding `idealBuffer` sample
by at most the DAC quantization step `2^(−N)` — but not by zero in general,
because the DAC quantization of stage 2 still rounds the I/Q samples. -/
theorem c1_clean_buffers_close (p : AppState) (timeOffset : ℝ)
    (U G : ℕ → ℕ → ℝ) (Pk : ℕ → ℝ) (fm : FilterMap)
    (hpn : p.awg.phaseNoise = 0) (htr : p.cable_room.temp = 0)
    (htc : p.cable_cryo.temp = 0)
    (hint : p.cable_room.noiseType ≠ some "interference")
    (hfl : p.cable_cryo.flickerNoise = 0)
    (hga : p.mixer.iqAmpImbalance = 1) (hph : p.mixer.iqPhaseImbalance = 0)
    (hlk : p.mixer.loLeakage = 0) (hcp : p.qubit.coupling = 1)
    (hra : ∀ c ∈ p.cable_room.components, c.type = "attenuator")
    (hca : ∀ c ∈ p.cable_cryo.components, c.type = "attenuator")
    (hrg : getChainGain p.cable_room.components = 1)
    (hcg : getChainGain p.cable_cryo.components = 1) :
    List.Forall₂ (fun a b => |a - b| ≤ (2 : ℝ) ^ (-p.dac.resolution))
      (simulateNoisy p timeOffset "qubit" U G Pk fm).1
      (simulateIdeal p timeOffset "qubit") := by
  unfold simulateNoisy simulateIdeal
  rw [runNoisy_clean p timeOffset (prepareCoeffsAll p) U G Pk
      hpn htr htc hint hfl hga hph hlk hcp hra hca hrg hcg BUFFER_SIZE fm]
  exact forall₂_map_map (List.range BUFFER_SIZE) _ _
    (fun i _ => cleanNoisy_close p timeOffset i hcp hrg hcg)

/-- Witness for C1: the bound holds on the concrete configuration `cfgW`. -/
theorem c1_clean_buffers_close_witness :
    List.Forall₂ (fun a b => |a - b| ≤ (2 : ℝ) ^ (-cfgW.dac.resolution))
      (simulateNoisy cfgW 0 "qubit" (fun _ _ => 0) (fun _ _ => 0) (fun _ => 0) []).1
      (simulateIdeal cfgW 0 "qubit") :=
  c1_clean_buffers_close cfgW 0 (fun _ _ => 0) (fun _ _ => 0) (fun _ => 0) []
    rfl rfl rfl (by simp [cfgW]) rfl rfl rfl rfl rfl
    (by simp [cfgW]) (by simp [cfgW]) cfgW_roomGain cfgW_cryoGain

/-- Counterexample for C1 as stated: on `cfgW` (all noise sources and
imbalances zeroed, empty unity-gain chains, coupling 1, DAC resolution
1 bit) the first `noisyBuffer` sample is exactly 1/2 while the first
`idealBuffer` sample is exactly 3/10 — a discrepancy of 1/5 caused by DAC
quantization, far beyond floating-point tolerance, so the buffers are not
equal. -/
theorem c1_counterexample :
    (simulateNoisy cfgW 0 "qubit" (fun _ _ => 0) (fun _ _ => 0) (fun _ => 0) []).1.head?
        = some (1 / 2)
    ∧ (simulateIdeal cfgW 0 "qubit").head? = some (3 / 10)
    ∧ ((1 : ℝ) / 2 ≠ 3 / 10) := by
  refine ⟨?_, ?_, by norm_num⟩
  · rw [simulateNoisy,
      runNoisy_clean cfgW 0 (prepareCoeffsAll cfgW) (fun _ _ => 0) (fun _ _ => 0) (fun _ => 0)
        rfl rfl rfl (by simp [cfgW]) rfl rfl rfl rfl rfl
        (by simp [cfgW]) (by simp [cfgW]) cfgW_roomGain cfgW_cryoGain BUFFER_SIZE []]
    rw [show BUFFER_SIZE = 1023 + 1 from rfl, List.range_succ_eq_map]
    simp [cfgW_clean0]
  · rw [simulateIdeal, show BUFFER_SIZE = 1023 + 1 from rfl, List.range_succ_eq_map]
    simp [cfgW_ideal0]

/-- Claim C2: the reported (smoothed) estimated T2 never exceeds `2·T1`
(as an invariant of the smoothing state `s ∈ [0, 2·T1]`, which holds from
the zero seed onward while T1 is fixed); it is monotonically non-increasing
when the AWG phase noise, either cable temperature, or the flicker
intensity increases with everything else fixed; and a degenerate total
decay rate `Γ2 ≤ 1e-6` yields exactly the `2·T1` ceiling. -/
theorem c2_t2_properties (p : AppState) (stage : String) (s q : ℝ)
    (hs0 : 0 ≤ s) (hs : s ≤ 2 * p.qubit.t1_us) :
    reportedT2 p stage s ≤ 2 * p.qubit.t1_us
    ∧ clampedT2 p stage ≤ 2 * p.qubit.t1_us
    ∧ (0 ≤ p.awg.phaseNoise → p.awg.phaseNoise ≤ q →
        reportedT2 (withPhaseNoise p q) stage s ≤ reportedT2 p stage s)
    ∧ (p.cable_room.temp ≤ q →
        reportedT2 (withRoomTemp p q) stage s ≤ reportedT2 p stage s)
    ∧ (p.cable_cryo.temp ≤ q →
        reportedT2 (withCryoTemp p q) stage s ≤ reportedT2 p stage s)
    ∧ (0 ≤ p.cable_cryo.flickerNoise → p.cable_cryo.flickerNoise ≤ q →
        reportedT2 (withFlicker p q) stage s ≤ reportedT2 p stage s)
    ∧ (totalDecayRate p stage ≤ 1e-6 → clampedT2 p stage = 2 * p.qubit.t1_us) := by
  have habove : 0 ≤ s := hs0
  refine ⟨reportedT2_le p stage s hs, clampedT2_le p stage, ?_, ?_, ?_, ?_, ?_⟩
  · intro h0 h
    exact reportedT2_mono p (withPhaseNoise p q) stage s
      (clampedT2_anti p (withPhaseNoise p q) stage rfl
        (totalDecayRate_mono p (withPhaseNoise p q) stage rfl
          (accumVar_mono_pn p stage q h0 h)))
  · intro h
    exact reportedT2_mono p (withRoomTemp p q) stage s
      (clampedT2_anti p (withRoomTemp p q) stage rfl
        (totalDecayRate_mono p (withRoomTemp p q) stage rfl
          (accumVar_mono_roomTemp p stage q h)))
  · intro h
    exact reportedT2_mono p (withCryoTemp p q) stage s
      (clampedT2_anti p (withCryoTemp p q) stage rfl
        (totalDecayRate_mono p (withCryoTemp p q) stage rfl
          (accumVar_mono_cryoTemp p stage q h)))
  · intro h0 h
    exact reportedT2_mono p (withFlicker p q) stage s
      (clampedT2_anti p (withFlicker p q) stage rfl
        (totalDecayRate_mono p (withFlicker p q) stage rfl
          (accumVar_mono_flicker p stage q h0 h)))
  · intro h
    have hng : ¬totalDecayRate p stage > 1e-6 := not_lt_of_le h
    rw [clampedT2]
    rw [if_neg hng, min_self]

/-- Witness for C2: the T2 properties instantiated on `cfgW`
(T1 = 30 µs, smoothing state 0, comparison value 1). -/
theorem c2_t2_properties_witness :
    (0 : ℝ) ≤ 0 ∧ (0 : ℝ) ≤ 2 * cfgW.qubit.t1_us ∧
      reportedT2 cfgW "qubit" 0 ≤ 2 * cfgW.qubit.t1_us :=
  ⟨le_refl 0, by norm_num [cfgW],
    (c2_t2_properties cfgW "qubit" 0 1 (le_refl 0) (by norm_num [cfgW])).1⟩

/-- Claim C3: the effective noise temperature is 0 at every observation
stage before the room-temperature cable; at the cryo/qubit observation
point it has the cascade-law form `T_in·G + T_phys·(1−G)` for the
cryogenic stage, where the incoming temperature `T_in` is the
room-temperature stage's temperature propagated through the room chain
gain; cryo gain exactly 1 passes `T_in` through unchanged; and as the cryo
gain tends to 0 the cascade output tends to the cryo stage's physical
temperature. -/
theorem c3_noise_temp_cascade (p : AppState) (stage : String) :
    ((stage = "source" ∨ stage = "awg" ∨ stage = "dac" ∨ stage = "mixer") →
      effectiveNoiseTemp p stage = 0)
    ∧ ((stage = "cable_cryo" ∨ stage = "qubit") →
      effectiveNoiseTemp p stage =
        (p.cable_room.temp * getChainGain p.cable_room.components) *
            getChainGain p.cable_cryo.components
          + p.cable_cryo.temp * (1 - getChainGain p.cable_cryo.components))
    ∧ (getChainGain p.cable_cryo.components = 1 → (stage = "cable_cryo" ∨ stage = "qubit") →
      effectiveNoiseTemp p stage = p.cable_room.temp * getChainGain p.cable_room.components)
    ∧ Filter.Tendsto
        (fun g : ℝ => (p.cable_room.temp * getChainGain p.cable_room.components) * g
          + p.cable_cryo.temp * (1 - g)) (nhds 0) (nhds p.cable_cryo.temp) := by
  refine ⟨?_, ?_, ?_, ?_⟩
  · rintro (h | h | h | h) <;> subst h <;> simp only [effectiveNoiseTemp] <;>
      rw [if_neg (by decide), if_neg (by decide)]
  · rintro (h | h) <;> subst h <;> simp only [effectiveNoiseTemp] <;>
      rw [if_neg (by decide), if_pos (by decide)]
  · intro hg hstage
    rcases hstage with h | h <;> subst h <;> simp only [effectiveNoiseTemp] <;>
      rw [if_neg (by decide), if_pos (by decide), hg] <;> ring
  · have hcont : Continuous fun g : ℝ =>
        (p.cable_room.temp * getChainGain p.cable_room.components) * g
          + p.cable_cryo.temp * (1 - g) := by
      continuity
    have := hcont.tendsto 0
    simpa using this

/-- Witness for C3: the cascade facts instantiated at concrete stages on
`cfgW` (whose empty cryo chain has gain exactly 1). -/
theorem c3_noise_temp_cascade_witness :
    effectiveNoiseTemp cfgW "mixer" = 0
    ∧ effectiveNoiseTemp cfgW "qubit"
        = cfgW.cable_room.temp * getChainGain cfgW.cable_room.components :=
  ⟨(c3_noise_temp_cascade cfgW "mixer").1 (Or.inr (Or.inr (Or.inr rfl))),
    (c3_noise_temp_cascade cfgW "qubit").2.2.1 cfgW_cryoGain (Or.inr rfl)⟩

/-- Claim C4: a chain consisting only of attenuators totalling `D` dB has
linear gain exactly `10^(−D/20)` (as computed by `getChainGain`), the
per-sample chain processing multiplies every input sample by exactly that
same factor (leaving the filter state and the random-draw counter
untouched), and a single 20 dB attenuator alone gives gain exactly 0.1. -/
theorem c4_attenuator_chain (comps : List ComponentConfig)
    (h : ∀ c ∈ comps, c.type = "attenuator") (s : ℝ) (cf : CoeffsMap)
    (fm : FilterMap) (A : ℕ → ℝ) (k : ℕ) :
    getChainGain comps = (10 : ℝ) ^ (-((comps.map ComponentConfig.value).sum) / 20)
    ∧ processChain s comps cf fm A k
        = (s * (10 : ℝ) ^ (-((comps.map ComponentConfig.value).sum) / 20), fm, k)
    ∧ getChainGain [ComponentConfig.mk "a1" "attenuator" 20] = 0.1 := by
  have hg : getChainGain comps
      = (10 : ℝ) ^ (-((comps.map ComponentConfig.value).sum) / 20) := by
    rw [getChainGain, gaindB_attenuators comps h]
  refine ⟨hg, ?_, ?_⟩
  · rw [processChain_attenuators comps h, hg]
  · have hsum : gaindB [ComponentConfig.mk "a1" "attenuator" 20] = -20 := by
      norm_num [gaindB_eq_sum]
    rw [getChainGain, hsum]
    rw [show ((-20 : ℝ) / 20) = -((1 : ℕ) : ℝ) by norm_num,
      Real.rpow_neg (by norm_num), Real.rpow_natCast]
    norm_num

/-- Witness for C4: the single 20 dB attenuator chain, processed on the
sample 1, yields exactly 0.1. -/
theorem c4_attenuator_chain_witness :
    (∀ c ∈ [ComponentConfig.mk "a1" "attenuator" 20], c.type = "attenuator")
    ∧ processChain 1 [ComponentConfig.mk "a1" "attenuator" 20] [] [] (fun _ => 0) 0
        = (1 * (10 : ℝ) ^ (-((List.map ComponentConfig.value
            [ComponentConfig.mk "a1" "attenuator" 20]).sum) / 20), [], 0) :=
  ⟨by simp,
    (c4_attenuator_chain [ComponentConfig.mk "a1" "attenuator" 20]
      (by simp) 1 [] [] (fun _ => 0) 0).2.1⟩

/-- Counterexample for C5 as stated: the engine applies no guard to a
non-positive DAC resolution.  At resolution −3 the level count is `2^(−3)`,
not the claimed minimum of 1 level: quantizing the sample 1 yields 0,
whereas the spec's guarded quantizer yields 1. -/
theorem c5_counterexample :
    dacQuantize (-3) 1 = 0 ∧ specQuantizeGuarded (-3) 1 = 1
      ∧ dacQuantize (-3) 1 ≠ specQuantizeGuarded (-3) 1 := by
  have h8 : ((2 : ℝ) ^ ((-3 : ℝ))) = 1 / 8 := by
    rw [show ((-3 : ℝ)) = -((3 : ℕ) : ℝ) by norm_num,
      Real.rpow_neg (by norm_num), Real.rpow_natCast]
    norm_num
  have hr1 : round ((1 : ℝ) * (1 / 8)) = 0 := by
    rw [round_eq]
    norm_num [Int.floor_eq_iff]
  have hr2 : round ((1 : ℝ) * 1) = 1 := by norm_num
  refine ⟨?_, ?_, ?_⟩
  · rw [dacQuantize, h8, hr1]
    norm_num
  · rw [specQuantizeGuarded, h8]
    norm_num [hr2]
  · rw [dacQuantize, specQuantizeGuarded, h8, hr1]
    norm_num [hr2]

/-- Claim C5 (amended): the quantizer maps every sample `v` to
`round(v·2^N)/2^N` for every resolution `N`, including `N ≤ 0`, with no
clamping of the level count; no division by zero occurs for any `N`
because `2^N` is strictly positive, and the quantization error is at most
half a step. -/
theorem c5_quantizer (N v : ℝ) :
    dacQuantize N v = ((round (v * (2 : ℝ) ^ N) : ℤ) : ℝ) / (2 : ℝ) ^ N
    ∧ (0 : ℝ) < (2 : ℝ) ^ N
    ∧ |dacQuantize N v - v| ≤ (2 : ℝ) ^ (-N) / 2 :=
  ⟨rfl, Real.rpow_pos_of_pos (by norm_num) N, quantize_error N v⟩

theorem voltsToBm_ten_nano : voltsToBm 1e-8 = -150 := by
  rw [voltsToBm, if_neg (by norm_num)]
  show 10 * Real.logb 10
      (((1e-8 : ℝ) / Real.sqrt 2) * ((1e-8 : ℝ) / Real.sqrt 2) / IMPEDANCE) + 30 = -150
  have hp : ((1e-8 : ℝ) / Real.sqrt 2) * ((1e-8 : ℝ) / Real.sqrt 2) / IMPEDANCE
      = (10 : ℝ) ^ ((-18 : ℝ)) := by
    have h2 : Real.sqrt 2 * Real.sqrt 2 = 2 := Real.mul_self_sqrt (by norm_num)
    rw [IMPEDANCE, div_mul_div_comm, h2]
    rw [show ((-18 : ℝ)) = -((18 : ℕ) : ℝ) by norm_num,
      Real.rpow_neg (by norm_num), Real.rpow_natCast]
    norm_num
  rw [hp,
    show Real.logb 10 ((10 : ℝ) ^ ((-18 : ℝ))) = -18 from
      Real.logb_rpow (by norm_num) (by norm_num)]
  norm_num

/-- Counterexample for C6 as stated: `voltsToBm` is not floored at
−140 dBm.  With a propagated peak voltage of `1e-8` V (above the `1e-9`
guard threshold) the dBm formula evaluates to exactly −150 dBm, so
`signalPowerdBm` returns a value strictly below −140. -/
theorem c6_counterexample :
    signalPowerdBm cfgTiny "source" = -150 ∧ ((-150 : ℝ) < -140) := by
  refine ⟨?_, by norm_num⟩
  have hv : signalVOf cfgTiny "source" = 1e-8 := by
    norm_num [signalVOf, cfgTiny, cfgW, stageIndex]
  rw [signalPowerdBm, hv, voltsToBm_ten_nano]

/-- Claim C6 (amended): `signalPowerdBm` converts the peak voltage
propagated through the active gain stages with `voltsToBm`; `voltsToBm`
returns −140 for any peak voltage below the `1e-9` guard threshold
(avoiding `log 0`), and otherwise returns exactly
`10·log10((V/√2)²/50) + 30` — which is NOT bounded below by −140 (it
reaches ≈ −170 just above the threshold). -/
theorem c6_voltsToBm_spec (v : ℝ) (p : AppState) (stage : String) :
    (v < 1e-9 → voltsToBm v = -140)
    ∧ (¬v < 1e-9 → voltsToBm v
        = 10 * Real.logb 10 ((v / Real.sqrt 2) * (v / Real.sqrt 2) / 50) + 30)
    ∧ signalPowerdBm p stage = voltsToBm (signalVOf p stage) := by
  refine ⟨fun h => by rw [voltsToBm, if_pos h], fun h => ?_, rfl⟩
  rw [voltsToBm, if_neg h]
  rfl

/-- Witness for C6: both `voltsToBm` branches exercised at concrete peak
voltages 0 (guarded) and 1 (formula). -/
theorem c6_voltsToBm_spec_witness :
    voltsToBm 0 = -140
    ∧ voltsToBm 1
        = 10 * Real.logb 10 ((1 / Real.sqrt 2) * (1 / Real.sqrt 2) / 50) + 30 :=
  ⟨(c6_voltsToBm_spec 0 cfgW "source").1 (by norm_num),
    (c6_voltsToBm_spec 1 cfgW "source").2.1 (by norm_num)⟩

/-- Claim C7: the upconverter computes
`V_RF = (I·γ)·cos(ω_LO t) − Q·sin(ω_LO t + θ) + V_leak·cos(ω_LO t)` for
every sample, and the ideal case γ=1, θ=0, V_leak=0 reduces exactly to the
standard image-reject mixer equation `I·cos(ω_LO t) − Q·sin(ω_LO t)`. -/
theorem c7_upconverter (I Q ampImb phaseImb leak lo t : ℝ) :
    mixerOut I Q ampImb phaseImb leak lo t
      = I * ampImb * Real.cos (2 * Real.pi * lo * t)
        - Q * Real.sin (2 * Real.pi * lo * t + phaseImb)
        + leak * Real.cos (2 * Real.pi * lo * t)
    ∧ mixerOut I Q 1 0 0 lo t
      = I * Real.cos (2 * Real.pi * lo * t) - Q * Real.sin (2 * Real.pi * lo * t) := by
  constructor
  · rfl
  · simp [mixerOut]

/-- Claim C8: a chain component whose kind is none of attenuator,
amplifier, lowpass, highpass, notch is processed as a pass-through: the
signal sample is unchanged (and no amplifier random draw is consumed),
because `prepareCoeffs` only ever stores coefficients for filter kinds, so
the coefficient lookup misses and the biquad branch is skipped. -/
theorem c8_unknown_passthrough (p : AppState) (c : ComponentConfig) (s : ℝ)
    (fm : FilterMap) (A : ℕ → ℝ) (k : ℕ)
    (hunk : ¬(c.type = "attenuator" ∨ c.type = "amplifier" ∨ c.type = "lowpass"
      ∨ c.type = "highpass" ∨ c.type = "notch"))
    (hid : ∀ d ∈ p.cable_room.components ++ p.cable_cryo.components, d.id = c.id →
      ¬(d.type = "lowpass" ∨ d.type = "highpass" ∨ d.type = "notch")) :
    (processComp (prepareCoeffsAll p) A (s, fm, k) c).1 = s
    ∧ (processComp (prepareCoeffsAll p) A (s, fm, k) c).2.2 = k := by
  have hcf : lookupA (prepareCoeffsAll p) c.id = none := by
    rw [prepareCoeffsAll,
      lookupA_prepareCoeffs _ _ _
        (fun d hd => hid d (List.mem_append.mpr (Or.inr hd))),
      lookupA_prepareCoeffs _ _ _
        (fun d hd => hid d (List.mem_append.mpr (Or.inl hd)))]
    rfl
  rw [processComp_unknown _ _ _ _ _ _ hunk hcf]
  exact ⟨rfl, rfl⟩

/-- Witness for C8: a `"circulator"` component (unknown kind) passes the
sample 5 through unchanged on `cfgW` (empty chains). -/
theorem c8_unknown_passthrough_witness :
    (processComp (prepareCoeffsAll cfgW) (fun _ => 0)
        (5, [], 0) (ComponentConfig.mk "x" "circulator" 3)).1 = 5
    ∧ (processComp (prepareCoeffsAll cfgW) (fun _ => 0)
        (5, [], 0) (ComponentConfig.mk "x" "circulator" 3)).2.2 = 0 :=
  c8_unknown_passthrough cfgW (ComponentConfig.mk "x" "circulator" 3) 5 [] (fun _ => 0) 0
    (by decide) (by simp [cfgW])

/-- Counterexample for C9 as stated: the engine never prunes
`filterStates`.  Starting a `simulateFrame` call with a stored state for
the identity `"old"` — absent from the configuration `cfgW`, whose chains
are empty — the full 1024-sample frame leaves the map unchanged: the stale
key `"old"` is still stored after the call even though no component of the
current configuration has that identity, contradicting the claimed
invariant that the stored key set only contains current identities. -/
theorem c9_counterexample :
    (simulateNoisy cfgW 0 "qubit" (fun _ _ => 0) (fun _ _ => 0) (fun _ => 0)
        [("old", BiquadState.zero)]).2 = [("old", BiquadState.zero)]
    ∧ "old" ∉ (cfgW.cable_room.components ++ cfgW.cable_cryo.components).map
        ComponentConfig.id := by
  constructor
  · rw [simulateNoisy]
    exact runNoisy_empty_chains cfgW 0 "qubit" (prepareCoeffsAll cfgW)
      (fun _ _ => 0) (fun _ _ => 0) (fun _ => 0) rfl rfl BUFFER_SIZE _
  · simp [cfgW]

/-- Claim C9 (amended): a newly appearing identity starts from the all-zero
biquad state (`getBiquadState` stores `BiquadState.zero` on a miss), but
state entries are never discarded: every identity stored before a
`simulateFrame` call is still stored after it, so the stored key set can
strictly contain the identities of the current configuration. -/
theorem c9_filter_state_store (p : AppState) (timeOffset : ℝ) (stage : String)
    (U G : ℕ → ℕ → ℝ) (Pk : ℕ → ℝ) (fm fm' : FilterMap) (id id' : String)
    (h : (lookupA fm id).isSome) (hmiss : lookupA fm' id' = none) :
    (lookupA (simulateNoisy p timeOffset stage U G Pk fm).2 id).isSome
    ∧ getBiquadState fm' id' = (BiquadState.zero, setA fm' id' BiquadState.zero)
    ∧ lookupA (getBiquadState fm' id').2 id' = some BiquadState.zero := by
  have hz : getBiquadState fm' id' = (BiquadState.zero, setA fm' id' BiquadState.zero) := by
    rw [getBiquadState, hmiss]
  refine ⟨?_, hz, ?_⟩
  · rw [simulateNoisy]
    exact runNoisy_preserves p timeOffset stage (prepareCoeffsAll p) U G Pk id
      BUFFER_SIZE fm h
  · rw [hz]
    exact lookupA_setA_self fm' id' BiquadState.zero

/-- Witness for C9 (amended): the stale key `"old"` survives a frame on
`cfgW`, and the fresh key `"new"` starts from the zero state. -/
theorem c9_filter_state_store_witness :
    (lookupA (simulateNoisy cfgW 0 "qubit" (fun _ _ => 0) (fun _ _ => 0) (fun _ => 0)
        [("old", BiquadState.zero)]).2 "old").isSome
    ∧ lookupA (getBiquadState [] "new").2 "new" = some BiquadState.zero :=
  ⟨(c9_filter_state_store cfgW 0 "qubit" (fun _ _ => 0) (fun _ _ => 0) (fun _ => 0)
      [("old", BiquadState.zero)] [] "old" "new" rfl rfl).1,
    (c9_filter_state_store cfgW 0 "qubit" (fun _ _ => 0) (fun _ _ => 0) (fun _ => 0)
      [("old", BiquadState.zero)] [] "old" "new" rfl rfl).2.2⟩

end ControlNoise
